import Mathlib

/-!
# Verification of timesheettool's core logic

A shallow embedding, in Lean 4, of the algorithmic core of the
`timesheettool` time-tracking CLI:

* the interval-reconciliation engine (`Records::complete_last_record`,
  `Records::add_record`, `Records::update_record` in `src/records.rs`),
* the record-id codec wrappers (`sqid` / `desqid` in `src/records.rs`),
* the absolute date parser's relative-day resolution
  (`parse_relative_date` / `find_last_day` in `src/parse/dateparse.rs`),
* the relative date-range parser (`parse_relative_date` in
  `src/parse/reldateparse.rs`),
* the daily aggregation and duration rounding
  (`print_granularity_daily`, `round_duration`, `round_to_next` in
  `src/print.rs`).

Modelling conventions:

* UTC instants (`chrono::DateTime<Utc>`) are modelled as `Int` (seconds
  since the Unix epoch); only ordering and subtraction of instants matter
  to the embedded code.
* Calendar dates (`chrono::NaiveDate`) are modelled as `Int` (days since
  1970-01-01, which was a Thursday).  The day-number model is unbounded;
  chrono's out-of-range failures (beyond year ±262143) are outside the
  scope of the claims treated here.
* The SQLite store is replaced by explicit arguments: the fetched
  previous record is passed in, and freshly generated row ids are passed
  as parameters.  The store echoes back exactly the values written, which
  is how the embedded functions below return their results.
* Machine integers are modelled as `Int`/`Nat`; where Rust arithmetic can
  wrap (release mode) the wrap is written as an explicit `%`, and where
  Rust arithmetic panics unconditionally (`%` by zero, `i64::MIN % -1`)
  the embedded function returns `none`.
-/

namespace Timesheettool

/-! ## The record-id codec (`sqids` crate, modelled)

`src/records.rs` builds a `Sqids` codec over the alphabet `'a'..='z'`
with `min_length(5)`.  The `sqids` crate itself is an external
dependency; the spec lists the identifier codec among the excluded
collaborators and requires only that it be a "stable, reversible,
human-typable encoding of the store's integer interval id into a
fixed-minimum-length alphabetic string and back".
-/

/-- The character for one base-26 digit of the modelled codec
(`0 ↦ 'a'`, …, `25 ↦ 'z'`). -/
def digitChar (d : Nat) : Char := Char.ofNat (97 + d)

/-- The numeric value of one alphabet character of the modelled codec. -/
def charDigit (c : Char) : Nat := c.toNat - 97

/-- The little-endian base-26 digits of `n`, with enough fuel; 64
division steps cover every `u64` value. -/
def base26Digits : Nat → Nat → List Nat
  | 0, _ => []
  | fuel + 1, n => if n = 0 then [] else n % 26 :: base26Digits fuel (n / 26)

/-- Modelled from the spec: the `sqids` crate's encoder (configured in
`src/records.rs` with alphabet `'a'..='z'` and `min_length(5)`) is an
external dependency whose internals are not part of this repository.
Following the spec's contract for the excluded identifier codec — a
stable, reversible encoding of a non-negative integer id into an
alphabetic string of length at least 5 — we model it as big-endian
base 26 over `'a'..='z'`, left-padded with `'a'` (digit 0) to the
minimum length 5. -/
def encDigits (n : Nat) : List Nat :=
  let digits := if n = 0 then [0] else (base26Digits 64 n).reverse
  List.replicate (5 - digits.length) 0 ++ digits

/-- Modelled from the spec: the encoded string of the excluded codec —
the digit list of `encDigits`, rendered over the alphabet `'a'..='z'`. -/
def encodeId (n : Nat) : String :=
  ⟨(encDigits n).map digitChar⟩

/-- Modelled from the spec: the `sqids` crate's decoder, inverse of
`encodeId`.  It returns the list of ids encoded in the string: one id
when every character is drawn from the alphabet `'a'..='z'` and the
string is nonempty, and no ids otherwise (mirroring the crate's decode,
which yields an empty id list on input outside its alphabet). -/
def decodeIds (s : String) : List Nat :=
  if s.data ≠ [] ∧ ∀ c ∈ s.data, 97 ≤ c.toNat ∧ c.toNat ≤ 122 then
    [s.data.foldl (fun acc c => 26 * acc + charDigit c) 0]
  else []

/-- `u32::from_be_bytes(record_id.to_be_bytes())`: bit-for-bit
reinterpretation of an `i32` as a `u32`. -/
def u32ofI32 (n : Int) : Nat := (n % (2 ^ 32)).toNat

/-- `i32::from_be_bytes(as_u32.to_be_bytes())`: bit-for-bit
reinterpretation of a `u32` as an `i32`. -/
def i32ofU32 (n : Nat) : Int := if n < 2 ^ 31 then (n : Int) else (n : Int) - 2 ^ 32

/-- `sqid` (`src/records.rs`): encode a record id, after reinterpreting
the `i32` id as a `u32` (then widening to `u64`). -/
def sqid (record_id : Int) : String := encodeId (u32ofI32 record_id)

/-- `desqid` (`src/records.rs`): decode a record-id string.  Fails with
an "invalid record id" error unless the decoding yields exactly one id
that fits in 32 bits; the id is then reinterpreted as an `i32`. -/
def desqid (s : String) : Except String Int :=
  match decodeIds s with
  | [v] =>
      if v < 2 ^ 32 then Except.ok (i32ofU32 v)
      else Except.error ("invalid record id " ++ s)
  | _ => Except.error ("invalid record id " ++ s)

/-! ## The data model (`src/records.rs`, `src/records/db.rs`) -/

/-- A stored row of the `records` table (`db::Record`). -/
structure DbRecord where
  id : Int
  task_id : Int
  started_at : Int
  ended_at : Option Int
deriving Repr, DecidableEq

/-- A stored row of the `tasks` table (`db::Task`), with its name. -/
structure Task where
  id : Int
  name : String
deriving Repr, DecidableEq

/-- A stored row of the `projects` table (`db::Project`). -/
structure Project where
  id : Int
  name : String
deriving Repr, DecidableEq

/-- The public `Record` struct of `src/records.rs`: one reported
interval, carrying its encoded id and the task/project names. -/
structure Record where
  id : String
  task : String
  project : Option String
  started_at : Int
  ended_at : Option Int
deriving Repr, DecidableEq

/-- `Record::duration` (`src/records.rs`):
`self.ended_at.unwrap_or(now) - self.started_at`. -/
def Record.duration (r : Record) (now : Int) : Int :=
  r.ended_at.getD now - r.started_at

/-- `Records::complete_last_record` (`src/records.rs`).

The SQLite access is made explicit: `last` is the row returned by
`get_most_recent_record` (the most recent record with
`started_at < end_date`, joined with its task and optional project), and
`newId` is the row id the store would assign to a freshly inserted
record.  `set_record_end_timestamp` and `insert_record` write exactly
the values shown, and the store echoes them back.  The function returns
the list of reported changes, closing change first. -/
def completeLastRecord (newId : Int) (last : Option (DbRecord × Task × Option Project))
    (end_date : Int) (start_date : Option Int) : List Record :=
  match last with
  | none => []
  | some (record, task, project) =>
    let closing : List Record :=
      match record.ended_at.filter (fun date => date ≤ end_date) with
      | some _ => []
      | none =>
        [{ id := sqid record.id
           task := task.name
           project := project.map Project.name
           started_at := record.started_at
           ended_at := some end_date }]
    let reopening : List Record :=
      match start_date with
      | none => []
      | some start_date =>
        match record.ended_at.filter (fun date => date ≤ start_date) with
        | some _ => []
        | none =>
          [{ id := sqid newId
             task := task.name
             project := project.map Project.name
             started_at := start_date
             ended_at := record.ended_at }]
    closing ++ reopening

/-- `Records::add_record` (`src/records.rs`).  `upsert_task` and
`insert_record` are store calls: `task_name` is upserted (yielding the
task and its project's name, passed here as `project_name`), the record
row is inserted with exactly the given bounds and assigned `newId`, and
the store echoes the inserted values back. -/
def addRecord (newId : Int) (task_name : String) (project_name : Option String)
    (start_date : Int) (end_date : Option Int) : Record :=
  { id := sqid newId
    task := task_name
    project := project_name
    started_at := start_date
    ended_at := end_date }

/-- The diesel `RecordUpdate` changeset applied by `db::update_record`:
fields that are `None` are left untouched (in particular `ended_at`
cannot be reset to NULL through this changeset). -/
def applyRecordUpdate (old : DbRecord) (started_at ended_at : Option Int)
    (task_id : Option Int) : DbRecord :=
  { old with
    task_id := task_id.getD old.task_id
    started_at := started_at.getD old.started_at
    ended_at := match ended_at with
      | some e => some e
      | none => old.ended_at }

/-- `Records::update_record` (`src/records.rs`).  The store access is
explicit: `old` is the stored row matching the decoded id, and
`task`/`project` are the task row referenced by the updated record
together with its project.  Fails exactly when `desqid` rejects the id
string. -/
def updateRecord (record_id : String) (old : DbRecord) (task : Task)
    (project : Option Project) (start_date end_date : Option Int)
    (task_id : Option Int) : Except String Record :=
  match desqid record_id with
  | Except.error e => Except.error e
  | Except.ok _ =>
    let record := applyRecordUpdate old start_date end_date task_id
    Except.ok
      { id := record_id
        started_at := record.started_at
        ended_at := record.ended_at
        task := task.name
        project := project.map Project.name }

/-- The interval invariant stated by the spec's data model: "if present,
`ended_at >= started_at`". -/
def recInvariant (r : Record) : Prop :=
  ∀ d, r.ended_at = some d → r.started_at ≤ d

/-! ## Calendar support (`chrono`)

`Int` is the day number since 1970-01-01.  The civil (year, month, day)
conversions are the standard Gregorian-calendar algorithms that chrono
implements; Lean's `Int` division and modulus are Euclidean, which for
the positive divisors used below coincide with floor division.
-/

/-- `chrono::Weekday`. -/
inductive Weekday where
  | mon | tue | wed | thu | fri | sat | sun
deriving Repr, DecidableEq

/-- `Weekday::num_days_from_monday`. -/
def Weekday.num_days_from_monday : Weekday → Nat
  | .mon => 0
  | .tue => 1
  | .wed => 2
  | .thu => 3
  | .fri => 4
  | .sat => 5
  | .sun => 6

/-- The weekday whose Monday-based index is `n % 7`. -/
def weekdayOfNum (n : Nat) : Weekday :=
  match n % 7 with
  | 0 => .mon
  | 1 => .tue
  | 2 => .wed
  | 3 => .thu
  | 4 => .fri
  | 5 => .sat
  | _ => .sun

/-- `NaiveDate::weekday`: 1970-01-01 (day 0) was a Thursday, so the
Monday-based index of day `d` is `(d + 3) mod 7`. -/
def Date.weekday (d : Int) : Weekday :=
  weekdayOfNum ((d + 3) % 7).toNat

/-- `Weekday::days_since` (chrono): the number of days from `other`
forward to `self`, in `0..7`. -/
def Weekday.days_since (self other : Weekday) : Nat :=
  (self.num_days_from_monday + 7 - other.num_days_from_monday) % 7

/-- `NaiveDate::succ_opt` (unbounded day-number model: always succeeds). -/
def succOpt (d : Int) : Option Int := some (d + 1)

/-- `NaiveDate::pred_opt` (unbounded day-number model: always succeeds). -/
def predOpt (d : Int) : Option Int := some (d - 1)

/-- Gregorian leap-year rule. -/
def isLeapYear (y : Int) : Bool :=
  y % 4 == 0 && (y % 100 != 0 || y % 400 == 0)

/-- Length of month `m` (1–12) of year `y`. -/
def daysInMonth (y : Int) (m : Nat) : Nat :=
  match m with
  | 1 => 31
  | 2 => if isLeapYear y then 29 else 28
  | 3 => 31
  | 4 => 30
  | 5 => 31
  | 6 => 30
  | 7 => 31
  | 8 => 31
  | 9 => 30
  | 10 => 31
  | 11 => 30
  | 12 => 31
  | _ => 0

/-- Civil `(year, month, day)` of a day number (standard Gregorian
conversion). -/
def civilFromDays (z0 : Int) : Int × Nat × Nat :=
  let z := z0 + 719468
  let era := z / 146097
  let doe := (z % 146097).toNat
  let yoe := (doe - doe / 1460 + doe / 36524 - doe / 146096) / 365
  let y := (yoe : Int) + era * 400
  let doy := doe - (365 * yoe + yoe / 4 - yoe / 100)
  let mp := (5 * doy + 2) / 153
  let d := doy - (153 * mp + 2) / 5 + 1
  let m := if mp < 10 then mp + 3 else mp - 9
  (if m ≤ 2 then y + 1 else y, m, d)

/-- Day number of a civil `(year, month, day)` (standard Gregorian
conversion). -/
def daysFromCivil (y : Int) (m d : Nat) : Int :=
  let y2 := if m ≤ 2 then y - 1 else y
  let era := y2 / 400
  let yoe := (y2 - era * 400).toNat
  let doy := (153 * (if m > 2 then m - 3 else m + 9) + 2) / 5 + d - 1
  let doe := yoe * 365 + yoe / 4 - yoe / 100 + doy
  era * 146097 + (doe : Int) - 719468

/-- `NaiveDate::year`. -/
def Date.year (d : Int) : Int := (civilFromDays d).1

/-- `NaiveDate::with_day`: replace the day of month, failing if the new
date would be invalid. -/
def withDay (d : Int) (day : Nat) : Option Int :=
  let c := civilFromDays d
  if 1 ≤ day ∧ day ≤ daysInMonth c.1 c.2.1 then some (daysFromCivil c.1 c.2.1 day)
  else none

/-- `NaiveDate::with_month`: replace the month, failing if the new date
would be invalid. -/
def withMonth (d : Int) (month : Nat) : Option Int :=
  let c := civilFromDays d
  if 1 ≤ month ∧ month ≤ 12 ∧ c.2.2 ≤ daysInMonth c.1 month then
    some (daysFromCivil c.1 month c.2.2)
  else none

/-- `NaiveDate::with_year`: replace the year, failing if the new date
would be invalid (February 29 of a non-leap year). -/
def withYear (d : Int) (year : Int) : Option Int :=
  let c := civilFromDays d
  if c.2.2 ≤ daysInMonth year c.2.1 then some (daysFromCivil year c.2.1 c.2.2)
  else none

/-- `NaiveDate - Months::new(count)` (chrono): calendar month
subtraction, clamping the day of month to the target month's length. -/
def subMonths (d : Int) (count : Nat) : Int :=
  let c := civilFromDays d
  let months := c.1 * 12 + (c.2.1 : Int) - 1 - (count : Int)
  let y2 := months / 12
  let m2 := (months % 12).toNat + 1
  daysFromCivil y2 m2 (min c.2.2 (daysInMonth y2 m2))

/-- `chrono::LocalResult`: the UTC instants matching a local wall-clock
time — none (a DST gap), exactly one, or two (a DST fold). -/
inductive LocalResult (α : Type) where
  | gap : LocalResult α
  | single : α → LocalResult α
  | ambiguous : α → α → LocalResult α
deriving Repr, DecidableEq

/-- `LocalResult::earliest`. -/
def LocalResult.earliest {α : Type} : LocalResult α → Option α
  | .gap => none
  | .single a => some a
  | .ambiguous e _ => some e

/-- `LocalResult::latest`. -/
def LocalResult.latest {α : Type} : LocalResult α → Option α
  | .gap => none
  | .single a => some a
  | .ambiguous _ l => some l

/-- A timezone (`tzfile::Tz` and friends), modelled by its
`with_ymd_and_hms` behaviour: the local calendar date (equivalently its
year/month/day components) plus a time of day resolve to the matching
UTC instants. -/
structure Tz where
  resolve : Int → Nat → Nat → Nat → LocalResult Int

/-- `str::eq_ignore_ascii_case` (`Char.toLower` lowercases exactly the
ASCII uppercase range, as Rust's ASCII lowering does). -/
def eqIgnoreAsciiCase (a b : String) : Bool :=
  a.data.map Char.toLower == b.data.map Char.toLower

/-- `str::trim`, on the ASCII whitespace characters recognized by
`Char.isWhitespace` (Rust additionally trims the rare non-ASCII
Unicode whitespace, which no grammar keyword contains). -/
def strTrim (s : String) : String :=
  ⟨((s.data.dropWhile Char.isWhitespace).reverse.dropWhile Char.isWhitespace).reverse⟩

/-- `chrono::Weekday::from_str`: accepts the full English weekday name
or its three-letter abbreviation, ASCII-case-insensitively. -/
def weekdayFromStr (s : String) : Option Weekday :=
  match String.mk (s.data.map Char.toLower) with
  | "mon" | "monday" => some .mon
  | "tue" | "tuesday" => some .tue
  | "wed" | "wednesday" => some .wed
  | "thu" | "thursday" => some .thu
  | "fri" | "friday" => some .fri
  | "sat" | "saturday" => some .sat
  | "sun" | "sunday" => some .sun
  | _ => none

/-- The canonical (lowercase, full) name of a weekday, as the regex of
`src/parse/dateparse.rs` captures it. -/
def Weekday.longName : Weekday → String
  | .mon => "monday"
  | .tue => "tuesday"
  | .wed => "wednesday"
  | .thu => "thursday"
  | .fri => "friday"
  | .sat => "saturday"
  | .sun => "sunday"

namespace Dateparse

/-- `find_last_day` (`src/parse/dateparse.rs`): the most recent strictly
prior occurrence of `day_of_week`; rejected (`none`) when today already
is that weekday. -/
def find_last_day (today : Int) (day_of_week : Weekday) : Option Int :=
  let n := (Date.weekday today).days_since day_of_week
  if n = 0 then none else some (today - (n : Int))

/-- `parse_relative_date` (`src/parse/dateparse.rs`): resolve the
optional captured date keyword relative to `today`. -/
def parse_relative_date (relation : Option String) (today : Int) : Option Int :=
  match relation with
  | none => some today
  | some day =>
    if eqIgnoreAsciiCase day "today" then some today
    else if eqIgnoreAsciiCase day "yesterday" then predOpt today
    else
      match weekdayFromStr day with
      | some weekday => find_last_day today weekday
      | none => none

end Dateparse

/-! ## The relative-range parser (`src/parse/reldateparse.rs`) -/

/-- The unit alternative matched by the regex of
`src/parse/reldateparse.rs`. -/
inductive TimeUnit where
  | day | week | month | year
deriving Repr, DecidableEq

/-- The anchored regex `^(\d+)\s*(d(ay|ays)?|w(k|eek|ks|eeks)?|m(o|onth|os|onths)?|y(r|e|ear|rs|es|ears)?)$`
of `src/parse/reldateparse.rs` (case-insensitive), together with
`captures[1].parse::<u32>()`: leading digits, optional whitespace, then
one of the unit words reaching the end of the string.  The count must
fit in a `u32` or parsing fails. -/
def parseCountUnit (s : String) : Option (Nat × TimeUnit) :=
  let cs := s.data
  let digits := cs.takeWhile Char.isDigit
  let rest := (cs.dropWhile Char.isDigit).dropWhile Char.isWhitespace
  if digits = [] then none
  else
    let unitStr := String.mk (rest.map Char.toLower)
    let unit :=
      if unitStr ∈ (["d", "day", "days"] : List String) then some TimeUnit.day
      else if unitStr ∈ (["w", "wk", "week", "wks", "weeks"] : List String) then
        some TimeUnit.week
      else if unitStr ∈ (["m", "mo", "month", "mos", "months"] : List String) then
        some TimeUnit.month
      else if unitStr ∈ (["y", "yr", "ye", "year", "yrs", "yes", "years"] : List String) then
        some TimeUnit.year
      else none
    match unit with
    | none => none
    | some u =>
      let v := digits.foldl (fun acc c => 10 * acc + (c.toNat - 48)) 0
      if v < 2 ^ 32 then some (v, u) else none

/-- `start_of_day` (`src/parse/reldateparse.rs`): local midnight of
`day`, converted using the earliest matching UTC instant; `none` on a
DST gap. -/
def start_of_day (timezone : Tz) (day : Int) : Option Int :=
  (timezone.resolve day 0 0 0).earliest

namespace Reldateparse

/-- `parse_relative_date` (`src/parse/reldateparse.rs`): resolve a
relative range expression ("now" or "COUNT UNIT") to a UTC instant. -/
def parse_relative_date (date : String) (timezone : Tz) (today : Int) : Option Int :=
  let date := strTrim date
  if eqIgnoreAsciiCase date "now" then
    match succOpt today with
    | none => none
    | some tomorrow => start_of_day timezone tomorrow
  else
    match parseCountUnit date with
    | none => none
    | some cu =>
      let count := cu.1 - 1
      match cu.2 with
      | .day => start_of_day timezone (today - (count : Int))
      | .week =>
        let day_of_week := Date.weekday today
        let week_start := today - (day_of_week.num_days_from_monday : Int)
        start_of_day timezone (week_start - ((count * 7 : Nat) : Int))
      | .month =>
        match withDay (subMonths today count) 1 with
        | none => none
        | some start_date => start_of_day timezone start_date
      | .year =>
        match ((withDay today 1).bind fun d => withMonth d 1).bind
            (fun d => withYear d (Date.year today - (count : Int))) with
        | none => none
        | some start_date => start_of_day timezone start_date

end Reldateparse

/-! ## Rounding and daily aggregation (`src/print.rs`)

`print_granularity_daily` writes one line per (consecutive-date block,
project) group.  The model below computes the data of the printed
lines; `i64` arithmetic wraps where Rust release arithmetic wraps, and
the operations that panic unconditionally in Rust (`%` by zero and the
overflowing `i64::MIN % -1`) are modelled by `none`.
-/

/-- The smallest `i64`. -/
def i64Min : Int := -(2 ^ 63)

/-- Wrapping `i64` arithmetic. -/
def wrapI64 (n : Int) : Int := (n + 2 ^ 63) % 2 ^ 64 - 2 ^ 63

/-- `round_to_next` (`src/print.rs`): round `value` up to the next
multiple of `unit`.  Rust's `%` truncates toward zero (`Int.tmod`), and
panics — here `none` — when `unit` is zero or on the overflowing
`i64::MIN % -1`. -/
def round_to_next (value unit : Int) : Option Int :=
  if unit = 0 then none
  else if value = i64Min ∧ unit = -1 then none
  else
    let remainder := Int.tmod value unit
    if remainder = 0 then some value
    else some (wrapI64 (wrapI64 (value + unit) - remainder))

/-- `round_duration` (`src/print.rs`): the duration is taken in whole
seconds (`Duration::num_seconds`), and the rounding unit is
`(rounding_minutes * 60) as i64`, a `u32` multiplication (wrapping,
hence the `% 2^32`). -/
def round_duration (duration_secs : Int) (rounding_minutes : Nat) : Option Int :=
  let rounding_seconds : Int := ((rounding_minutes * 60) % 2 ^ 32 : Nat)
  round_to_next duration_secs rounding_seconds

/-- One printed line of the daily listing: the date column (shown only
on the first line of a day block), the rounded duration, the project,
and the comma-joined sorted task names. -/
structure DailyLine where
  date : Option Int
  duration : Option Int
  project : Option String
  tasks : String
deriving Repr, DecidableEq

/-- Ordering on `Option String` as Rust's `Ord` derives it: `None`
sorts before `Some`, strings lexicographically. -/
def optStrLe (a b : Option String) : Bool :=
  match a, b with
  | none, _ => true
  | some _, none => false
  | some x, some y => decide (x ≤ y)

/-- The comparator `|a, b| a.project.cmp(&b.project).reverse()` used by
`print_granularity_daily`: sort records by project, descending. -/
def projectDescLe (a b : Record) : Bool :=
  optStrLe b.project a.project

/-- The task column: the `HashSet` of task names of a group, collected,
sorted and joined with `", "`. -/
def taskListString (tasks : List String) : String :=
  ", ".intercalate (tasks.eraseDups.mergeSort (fun a b => decide (a ≤ b)))

/-- The inner loop of `print_granularity_daily`: split the (sorted) day
block into runs of equal project; for each run, sum the effective
durations of its records and round the sum once.  Yields
`(project, rounded duration, tasks)` triples in order. -/
def projectLines (now : Int) (rounding_minutes : Nat) :
    List Record → List (Option String × Option Int × String)
  | [] => []
  | r :: rest =>
    let group := r :: rest.takeWhile (fun x => x.project == r.project)
    let rest2 := rest.dropWhile (fun x => x.project == r.project)
    let duration := (group.map (fun x => x.duration now)).sum
    (r.project, round_duration duration rounding_minutes,
      taskListString (group.map Record.task)) :: projectLines now rounding_minutes rest2
termination_by l => l.length
decreasing_by
  simp only [List.length_cons]
  exact Nat.lt_succ_of_le (List.dropWhile_sublist _).length_le

/-- The date column marking of `print_granularity_daily`: the first line
of a day block carries the date, the following lines of the same block
do not. -/
def markFirst (d : Int) : List (Option String × Option Int × String) → List DailyLine
  | [] => []
  | x :: xs =>
    ⟨some d, x.2.1, x.1, x.2.2⟩ :: xs.map fun y => ⟨none, y.2.1, y.1, y.2.2⟩

/-- `print_granularity_daily` (`src/print.rs`), as the list of lines it
prints.  `dateOf` models `started_at.with_timezone(tz).date_naive()`
(the local calendar date of an instant).  The outer loop takes maximal
runs of records on the same local date; each run is sorted by project
descending and handed to the inner per-project loop. -/
def print_granularity_daily (dateOf : Int → Int) (now : Int)
    (rounding_minutes : Nat) : List Record → List DailyLine
  | [] => []
  | r :: rest =>
    let d := dateOf r.started_at
    let block := r :: rest.takeWhile (fun x => dateOf x.started_at == d)
    let rest2 := rest.dropWhile (fun x => dateOf x.started_at == d)
    let sorted := block.mergeSort projectDescLe
    markFirst d (projectLines now rounding_minutes sorted) ++
      print_granularity_daily dateOf now rounding_minutes rest2
termination_by l => l.length
decreasing_by
  simp only [List.length_cons]
  exact Nat.lt_succ_of_le (List.dropWhile_sublist _).length_le

/-! ## Further definitions used by the statements below -/

/-- The end of the previous interval *after* the closing step: if the
closing step ran it is the new `end_date`, otherwise the untouched
original end.  This is the quantity §4.1 of the spec says the reopening
step consults ("the previous interval's (possibly just-updated) end");
the code consults the original end instead, and the two readings are
compared below. -/
def updatedEnd (record : DbRecord) (end_date : Int) : Option Int :=
  match record.ended_at.filter (fun date => date ≤ end_date) with
  | some e => some e
  | none => some end_date

/-- A fixed-offset timezone with no gaps or folds (`Etc/UTC`), used to
instantiate theorems at concrete inputs. -/
def utcTz : Tz :=
  ⟨fun d h m s => .single (d * 86400 + (h : Int) * 3600 + (m : Int) * 60 + (s : Int))⟩

/-! ## Helper lemmas: the modelled codec -/

theorem digitChar_toNat {d : Nat} (hd : d < 26) : (digitChar d).toNat = 97 + d := by
  interval_cases d <;> rfl

theorem base26Digits_lt {fuel n d : Nat} (h : d ∈ base26Digits fuel n) : d < 26 := by
  induction fuel generalizing n with
  | zero => simp [base26Digits] at h
  | succ fuel ih =>
    rw [base26Digits] at h
    split at h
    · simp at h
    · rcases List.mem_cons.mp h with h1 | h2
      · omega
      · exact ih h2

theorem base26Digits_ne_nil {fuel n : Nat} (hn : n ≠ 0) (hf : 0 < fuel) :
    base26Digits fuel n ≠ [] := by
  match fuel, hf with
  | fuel + 1, _ =>
    rw [base26Digits]
    simp [hn]

theorem base26Digits_val {fuel n : Nat} (h : n < 26 ^ fuel) :
    (base26Digits fuel n).reverse.foldl (fun a d => 26 * a + d) 0 = n := by
  induction fuel generalizing n with
  | zero =>
    simp only [pow_zero, Nat.lt_one_iff] at h
    simp [base26Digits, h]
  | succ fuel ih =>
    rw [base26Digits]
    split
    · rename_i h0
      simp [h0]
    · rename_i h0
      rw [List.reverse_cons, List.foldl_append]
      have hdiv : n / 26 < 26 ^ fuel := by
        have h2 : n < 26 ^ fuel * 26 := by
          rw [← pow_succ]
          exact h
        omega
      rw [ih hdiv]
      simp only [List.foldl_cons, List.foldl_nil]
      omega

theorem encDigits_mem {n d : Nat} (h : d ∈ encDigits n) : d < 26 := by
  simp only [encDigits] at h
  rcases List.mem_append.mp h with h1 | h2
  · have := List.eq_of_mem_replicate h1
    omega
  · split at h2
    · simp at h2
      omega
    · exact base26Digits_lt (List.mem_reverse.mp h2)

theorem encDigits_ne_nil (n : Nat) : encDigits n ≠ [] := by
  simp only [encDigits]
  intro h
  have h2 := (List.append_eq_nil.mp h).2
  split at h2
  · simp at h2
  · rename_i hn
    have h3 : base26Digits 64 n = [] := by simpa using h2
    exact base26Digits_ne_nil hn (by norm_num) h3

theorem encDigits_length (n : Nat) : 5 ≤ (encDigits n).length := by
  simp only [encDigits]
  rw [List.length_append, List.length_replicate]
  omega

theorem encDigits_val {n : Nat} (h : n < 2 ^ 32) :
    (encDigits n).foldl (fun a d => 26 * a + d) 0 = n := by
  simp only [encDigits]
  rw [List.foldl_append]
  have hrep : ∀ k, (List.replicate k 0).foldl (fun a d => 26 * a + d) 0 = 0 := by
    intro k
    induction k with
    | zero => rfl
    | succ k ih => simpa [List.replicate_succ] using ih
  rw [hrep]
  split
  · rename_i h0
    simp [h0]
  · apply base26Digits_val
    calc n < 2 ^ 32 := h
    _ ≤ 26 ^ 32 := Nat.pow_le_pow_left (by norm_num) 32
    _ ≤ 26 ^ 64 := Nat.pow_le_pow_right (by norm_num) (by norm_num)

theorem decodeIds_encodeId {n : Nat} (h : n < 2 ^ 32) :
    decodeIds (encodeId n) = [n] := by
  unfold decodeIds encodeId
  have hcond : ((String.mk ((encDigits n).map digitChar)).data ≠ [] ∧
      ∀ c ∈ (String.mk ((encDigits n).map digitChar)).data, 97 ≤ c.toNat ∧ c.toNat ≤ 122) := by
    constructor
    · simpa using encDigits_ne_nil n
    · intro c hc
      rcases List.mem_map.mp hc with ⟨d, hd, rfl⟩
      have h1 := encDigits_mem hd
      rw [digitChar_toNat h1]
      omega
  rw [if_pos hcond]
  have hfold : (String.mk ((encDigits n).map digitChar)).data.foldl
      (fun acc c => 26 * acc + charDigit c) 0 = n := by
    show ((encDigits n).map digitChar).foldl (fun acc c => 26 * acc + charDigit c) 0 = n
    rw [List.foldl_map]
    rw [List.foldl_ext _ (fun a d => 26 * a + d) 0 ?ext]
    · exact encDigits_val h
    case ext =>
      intro a d hd
      have h1 := encDigits_mem hd
      unfold charDigit
      rw [digitChar_toNat h1]
      simp [Nat.add_sub_cancel_left]
  rw [hfold]

theorem u32ofI32_lt (n : Int) : u32ofI32 n < 2 ^ 32 := by
  unfold u32ofI32
  omega

theorem i32ofU32_u32ofI32 (n : Int) (h0 : -(2 ^ 31) ≤ n) (h1 : n < 2 ^ 31) :
    i32ofU32 (u32ofI32 n) = n := by
  unfold i32ofU32 u32ofI32
  split <;> omega

/-! ## Helper lemmas: the reconciler -/

theorem completeLastRecord_open_noStart (newId : Int) (record : DbRecord) (task : Task)
    (project : Option Project) (end_date : Int) (hend : record.ended_at = none) :
    completeLastRecord newId (some (record, task, project)) end_date none =
      [{ id := sqid record.id, task := task.name, project := project.map Project.name,
         started_at := record.started_at, ended_at := some end_date }] := by
  simp [completeLastRecord, hend, Option.filter]

theorem completeLastRecord_open_start (newId : Int) (record : DbRecord) (task : Task)
    (project : Option Project) (end_date r : Int) (hend : record.ended_at = none) :
    completeLastRecord newId (some (record, task, project)) end_date (some r) =
      [{ id := sqid record.id, task := task.name, project := project.map Project.name,
         started_at := record.started_at, ended_at := some end_date },
       { id := sqid newId, task := task.name, project := project.map Project.name,
         started_at := r, ended_at := none }] := by
  simp [completeLastRecord, hend, Option.filter]

theorem completeLastRecord_closed_noStart (newId : Int) (record : DbRecord) (task : Task)
    (project : Option Project) (end_date d : Int) (hend : record.ended_at = some d) :
    completeLastRecord newId (some (record, task, project)) end_date none =
      if end_date < d then
        [{ id := sqid record.id, task := task.name, project := project.map Project.name,
           started_at := record.started_at, ended_at := some end_date }]
      else [] := by
  by_cases h1 : d ≤ end_date
  · simp [completeLastRecord, hend, Option.filter, h1, not_lt.mpr h1]
  · simp [completeLastRecord, hend, Option.filter, h1, lt_of_not_le h1]

theorem completeLastRecord_closed_start (newId : Int) (record : DbRecord) (task : Task)
    (project : Option Project) (end_date d r : Int) (hend : record.ended_at = some d) :
    completeLastRecord newId (some (record, task, project)) end_date (some r) =
      (if end_date < d then
        [{ id := sqid record.id, task := task.name, project := project.map Project.name,
           started_at := record.started_at, ended_at := some end_date }]
       else []) ++
        (if r < d then
          [{ id := sqid newId, task := task.name, project := project.map Project.name,
             started_at := r, ended_at := some d }]
         else []) := by
  by_cases h1 : d ≤ end_date <;> by_cases h2 : d ≤ r
  · simp [completeLastRecord, hend, Option.filter, h1, h2, not_lt.mpr h1, not_lt.mpr h2]
  · simp [completeLastRecord, hend, Option.filter, h1, h2, not_lt.mpr h1, lt_of_not_le h2]
  · simp [completeLastRecord, hend, Option.filter, h1, h2, lt_of_not_le h1, not_lt.mpr h2]
  · simp [completeLastRecord, hend, Option.filter, h1, h2, lt_of_not_le h1, lt_of_not_le h2]

/-! ## The claims -/

/-- C1: when both the closing and the reopening step apply (the previous
interval's end is absent or strictly after `t`, respectively absent or
strictly after `r`), `complete_last_record` returns exactly two changes:
first the closed change with the previous interval's task, project and
start and `ended_at = t`, then the new interval for the same task with
`started_at = r` and the previous interval's original end. -/
theorem c1_split_two_changes (newId : Int) (record : DbRecord) (task : Task)
    (project : Option Project) (t r : Int)
    (hclose : ∀ e, record.ended_at = some e → t < e)
    (hreopen : ∀ e, record.ended_at = some e → r < e) :
    completeLastRecord newId (some (record, task, project)) t (some r) =
      [{ id := sqid record.id, task := task.name, project := project.map Project.name,
         started_at := record.started_at, ended_at := some t },
       { id := sqid newId, task := task.name, project := project.map Project.name,
         started_at := r, ended_at := record.ended_at }] := by
  cases hend : record.ended_at with
  | none =>
    rw [completeLastRecord_open_start _ _ _ _ _ _ hend]
  | some d =>
    rw [completeLastRecord_closed_start _ _ _ _ _ _ _ hend,
      if_pos (hclose d hend), if_pos (hreopen d hend)]
    rfl

/-- Witness for C1: the spec's worked example — a 10:00–15:00 interval
reconciled with `end_time` 11:00 and `start_time` 12:00 yields the
truncation to 11:00 followed by a 12:00–15:00 split (instants in
seconds of day). -/
theorem c1_split_two_changes_witness :
    completeLastRecord 2 (some (⟨1, 1, 36000, some 54000⟩, ⟨1, "abc"⟩, none)) 39600 (some 43200) =
      [{ id := sqid 1, task := "abc", project := none, started_at := 36000, ended_at := some 39600 },
       { id := sqid 2, task := "abc", project := none, started_at := 43200, ended_at := some 54000 }] :=
  c1_split_two_changes 2 ⟨1, 1, 36000, some 54000⟩ ⟨1, "abc"⟩ none 39600 43200
    (fun e he => by simp at he; omega)
    (fun e he => by simp at he; omega)

/-- C2, counterexample: with an open previous interval, `end_time = 10`
and `start_time = 20`, the code inserts the split record (second change,
starting at 20) even though the *just-updated* end (`some 10`) is
neither absent nor strictly after 20 — so the reopening condition is
decided by the original end, not by the end after the closing step. -/
theorem c2_reopen_uses_original_end_counterexample :
    completeLastRecord 2 (some (⟨1, 1, 0, none⟩, ⟨1, "t"⟩, none)) 10 (some 20) =
      [{ id := sqid 1, task := "t", project := none, started_at := 0, ended_at := some 10 },
       { id := sqid 2, task := "t", project := none, started_at := 20, ended_at := none }] ∧
    updatedEnd ⟨1, 1, 0, none⟩ 10 = some 10 ∧
    ¬ (updatedEnd ⟨1, 1, 0, none⟩ 10 = none ∨
        ∃ u, updatedEnd ⟨1, 1, 0, none⟩ 10 = some u ∧ 20 < u) := by
  refine ⟨rfl, rfl, ?_⟩
  rintro (h | ⟨u, hu, hlt⟩)
  · exact Option.noConfusion ((rfl : updatedEnd ⟨1, 1, 0, none⟩ 10 = some 10) ▸ h)
  · rw [(rfl : updatedEnd ⟨1, 1, 0, none⟩ 10 = some 10)] at hu
    injection hu with h2
    omega

/-- C2 (amended): the reopening step inserts the split interval if and
only if the previous interval's **original** end is absent or strictly
after `start_time`; supplying a `start_time` otherwise leaves the result
of the closing step unchanged. -/
theorem c2_reopen_iff_original_end (newId : Int) (record : DbRecord) (task : Task)
    (project : Option Project) (e r : Int) :
    (record.ended_at = none ∨ (∃ d, record.ended_at = some d ∧ r < d) →
      completeLastRecord newId (some (record, task, project)) e (some r) =
        completeLastRecord newId (some (record, task, project)) e none ++
          [{ id := sqid newId, task := task.name, project := project.map Project.name,
             started_at := r, ended_at := record.ended_at }]) ∧
    ((∃ d, record.ended_at = some d ∧ d ≤ r) →
      completeLastRecord newId (some (record, task, project)) e (some r) =
        completeLastRecord newId (some (record, task, project)) e none) := by
  constructor
  · rintro (hnone | ⟨d, hd, hlt⟩)
    · rw [completeLastRecord_open_start _ _ _ _ _ _ hnone,
        completeLastRecord_open_noStart _ _ _ _ _ hnone, hnone]
      rfl
    · rw [completeLastRecord_closed_start _ _ _ _ _ _ _ hd,
        completeLastRecord_closed_noStart _ _ _ _ _ _ hd, hd, if_pos hlt]
  · rintro ⟨d, hd, hle⟩
    rw [completeLastRecord_closed_start _ _ _ _ _ _ _ hd,
      completeLastRecord_closed_noStart _ _ _ _ _ _ hd, if_neg (not_lt.mpr hle)]
    simp

/-- Witness for the amended C2: with an open previous interval the
split is appended to the closing-only result. -/
theorem c2_reopen_iff_original_end_witness :
    completeLastRecord 2 (some (⟨1, 1, 0, none⟩, ⟨1, "t"⟩, none)) 10 (some 20) =
      completeLastRecord 2 (some (⟨1, 1, 0, none⟩, ⟨1, "t"⟩, none)) 10 none ++
        [{ id := sqid 2, task := "t", project := none, started_at := 20, ended_at := none }] :=
  (c2_reopen_iff_original_end 2 ⟨1, 1, 0, none⟩ ⟨1, "t"⟩ none 10 20).1 (Or.inl rfl)

/-- C3: closing an open interval at `a` yields exactly one closed change
ending at `a`; closing the now-closed interval again at any `b ≥ a`
yields no changes. -/
theorem c3_closing_idempotent (newId newId2 : Int) (record : DbRecord) (task : Task)
    (project : Option Project) (a b : Int)
    (hopen : record.ended_at = none) (hstart : record.started_at < a) (hab : a ≤ b) :
    completeLastRecord newId (some (record, task, project)) a none =
      [{ id := sqid record.id, task := task.name, project := project.map Project.name,
         started_at := record.started_at, ended_at := some a }] ∧
    completeLastRecord newId2 (some ({ record with ended_at := some a }, task, project)) b none =
      [] := by
  constructor
  · rw [completeLastRecord_open_noStart _ _ _ _ _ hopen]
  · rw [completeLastRecord_closed_noStart newId2 _ task project b a rfl,
      if_neg (not_lt.mpr hab)]

/-- Witness for C3 at a concrete open interval and bounds `5 ≤ 7`. -/
theorem c3_closing_idempotent_witness :
    completeLastRecord 2 (some (⟨1, 1, 0, none⟩, ⟨1, "t"⟩, none)) 5 none =
      [{ id := sqid 1, task := "t", project := none, started_at := 0, ended_at := some 5 }] ∧
    completeLastRecord 3 (some (⟨1, 1, 0, some 5⟩, ⟨1, "t"⟩, none)) 7 none = [] :=
  c3_closing_idempotent 2 3 ⟨1, 1, 0, none⟩ ⟨1, "t"⟩ none 5 7 rfl (by decide) (by decide)

/-- C7, counterexample: `add_record` performs no validation, so with
`start_date = 1` and `end_date = Some 0` it produces a record violating
`ended_at >= started_at`. -/
theorem c7_invariant_counterexample :
    ¬ recInvariant (addRecord 1 "t" none 1 (some 0)) := by
  intro h
  have h2 := h 0 rfl
  simp [addRecord] at h2

/-- C7 (amended): `complete_last_record` always reports intervals
satisfying `ended_at >= started_at` (using the store's guarantee that
the fetched record starts strictly before `end_date`); `add_record` and
`update_record` return intervals satisfying the invariant exactly when
the effective bounds they are given satisfy it — they perform no
validation of their own. -/
theorem c7_invariant_per_operation :
    (∀ (newId : Int) (record : DbRecord) (task : Task) (project : Option Project)
        (end_date : Int) (start_date : Option Int),
        record.started_at < end_date →
        ∀ rec ∈ completeLastRecord newId (some (record, task, project)) end_date start_date,
          recInvariant rec) ∧
    (∀ (newId : Int) (task_name : String) (project_name : Option String)
        (start_date : Int) (end_date : Option Int),
        (∀ x, end_date = some x → start_date ≤ x) →
        recInvariant (addRecord newId task_name project_name start_date end_date)) ∧
    (∀ (record_id : String) (old : DbRecord) (task : Task) (project : Option Project)
        (start_date end_date : Option Int) (task_id : Option Int) (rec : Record),
        (∀ x, (applyRecordUpdate old start_date end_date task_id).ended_at = some x →
          (applyRecordUpdate old start_date end_date task_id).started_at ≤ x) →
        updateRecord record_id old task project start_date end_date task_id = Except.ok rec →
        recInvariant rec) := by
  refine ⟨?_, ?_, ?_⟩
  · intro newId record task project end_date start_date hlt rec hrec
    intro x hx
    cases hend : record.ended_at with
    | none =>
      cases start_date with
      | none =>
        rw [completeLastRecord_open_noStart _ _ _ _ _ hend] at hrec
        simp only [List.mem_singleton] at hrec
        subst hrec
        simp at hx ⊢
        omega
      | some r =>
        rw [completeLastRecord_open_start _ _ _ _ _ _ hend] at hrec
        rcases List.mem_cons.mp hrec with h | h
        · subst h
          simp at hx ⊢
          omega
        · simp only [List.mem_singleton] at h
          subst h
          simp at hx
    | some d =>
      cases start_date with
      | none =>
        rw [completeLastRecord_closed_noStart _ _ _ _ _ _ hend] at hrec
        by_cases hc : end_date < d
        · rw [if_pos hc] at hrec
          simp only [List.mem_singleton] at hrec
          subst hrec
          simp at hx ⊢
          omega
        · rw [if_neg hc] at hrec
          simp at hrec
      | some r =>
        rw [completeLastRecord_closed_start _ _ _ _ _ _ _ hend] at hrec
        rcases List.mem_append.mp hrec with h | h
        · by_cases hc : end_date < d
          · rw [if_pos hc] at h
            simp only [List.mem_singleton] at h
            subst h
            simp at hx ⊢
            omega
          · rw [if_neg hc] at h
            simp at h
        · by_cases hr : r < d
          · rw [if_pos hr] at h
            simp only [List.mem_singleton] at h
            subst h
            simp at hx ⊢
            omega
          · rw [if_neg hr] at h
            simp at h
  · intro newId task_name project_name start_date end_date hok
    intro x hx
    exact hok x hx
  · intro record_id old task project start_date end_date task_id rec hok hupd
    unfold updateRecord at hupd
    cases hdes : desqid record_id with
    | error e =>
      rw [hdes] at hupd
      exact Except.noConfusion hupd
    | ok v =>
      rw [hdes] at hupd
      injection hupd with h2
      subst h2
      intro x hx
      exact hok x hx

/-- Witness for the amended C7: the three operations at concrete valid
inputs. -/
theorem c7_invariant_per_operation_witness :
    (∀ rec ∈ completeLastRecord 2 (some (⟨1, 1, 0, none⟩, ⟨1, "t"⟩, none)) 10 (some 20),
      recInvariant rec) ∧
    recInvariant (addRecord 1 "t" none 0 (some 5)) := by
  constructor
  · exact c7_invariant_per_operation.1 2 ⟨1, 1, 0, none⟩ ⟨1, "t"⟩ none 10 (some 20) (by decide)
  · exact c7_invariant_per_operation.2.1 1 "t" none 0 (some 5)
      (fun x hx => by simp at hx; omega)

/-- The inner per-project loop on a block whose records all carry the
same project: one line, whose duration is the rounded sum of the whole
block's effective durations. -/
theorem projectLines_const_project (now : Int) (rounding_minutes : Nat) (l : List Record)
    (p : Option String) (hne : l ≠ []) (hp : ∀ x ∈ l, x.project = p) :
    projectLines now rounding_minutes l =
      [(p, round_duration ((l.map (fun x => x.duration now)).sum) rounding_minutes,
        taskListString (l.map Record.task))] := by
  cases l with
  | nil => exact absurd rfl hne
  | cons r rest =>
    have hr : r.project = p := hp r (List.mem_cons_self r rest)
    have hall : ∀ x ∈ rest, (fun x => x.project == r.project) x = true := by
      intro x hx
      have hx2 := hp x (List.mem_cons_of_mem r hx)
      simp [hx2, hr]
    simp only [projectLines]
    rw [List.takeWhile_eq_self_iff.mpr hall, List.dropWhile_eq_nil_iff.mpr hall]
    simp only [projectLines]
    simp [hr]

/-- C6: in daily aggregation, a nonempty run of records on one local
calendar day and one project produces exactly one line, carrying that
day and project and the rounding — applied once — of the *sum* of the
records' effective durations. -/
theorem c6_daily_sum_then_round (dateOf : Int → Int) (now : Int) (rounding_minutes : Nat)
    (recs : List Record) (d : Int) (p : Option String)
    (hne : recs ≠ [])
    (hd : ∀ x ∈ recs, dateOf x.started_at = d)
    (hp : ∀ x ∈ recs, x.project = p) :
    ∃ tasks, print_granularity_daily dateOf now rounding_minutes recs =
      [⟨some d, round_duration ((recs.map (fun x => x.duration now)).sum) rounding_minutes,
        p, tasks⟩] := by
  cases recs with
  | nil => exact absurd rfl hne
  | cons r rest =>
    have hrd : dateOf r.started_at = d := hd r (List.mem_cons_self r rest)
    have hall : ∀ x ∈ rest, (fun x => dateOf x.started_at == dateOf r.started_at) x = true := by
      intro x hx
      have hx2 := hd x (List.mem_cons_of_mem r hx)
      simp [hx2, hrd]
    simp only [print_granularity_daily]
    rw [List.takeWhile_eq_self_iff.mpr hall, List.dropWhile_eq_nil_iff.mpr hall]
    simp only [print_granularity_daily, List.append_nil]
    have hperm : ((r :: rest).mergeSort projectDescLe).Perm (r :: rest) :=
      List.mergeSort_perm _ _
    have hsne : (r :: rest).mergeSort projectDescLe ≠ [] := by
      intro h0
      have hlen := hperm.length_eq
      rw [h0] at hlen
      simp at hlen
    have hsp : ∀ x ∈ (r :: rest).mergeSort projectDescLe, x.project = p :=
      fun x hx => hp x (hperm.mem_iff.mp hx)
    rw [projectLines_const_project now rounding_minutes _ p hsne hsp]
    have hsum : (((r :: rest).mergeSort projectDescLe).map (fun x => x.duration now)).sum =
        ((r :: rest).map (fun x => x.duration now)).sum :=
      (hperm.map (fun x => x.duration now)).sum_eq
    refine ⟨taskListString (((r :: rest).mergeSort projectDescLe).map Record.task), ?_⟩
    simp [markFirst, hrd, hsum]

/-- Witness for C6: two same-day same-project records of 10 and 20
minutes with a 30-minute rounding unit yield one 30-minute bucket (1800
seconds), not two independently rounded 30-minute buckets. -/
theorem c6_daily_sum_then_round_witness :
    ∃ tasks, print_granularity_daily (fun t => t / 86400) 99999 30
        [⟨"id1", "a", some "p", 0, some 600⟩, ⟨"id2", "b", some "p", 600, some 1800⟩] =
      [⟨some 0, some 1800, some "p", tasks⟩] := by
  obtain ⟨ts, h⟩ := c6_daily_sum_then_round (fun t => t / 86400) 99999 30
      [⟨"id1", "a", some "p", 0, some 600⟩, ⟨"id2", "b", some "p", 600, some 1800⟩] 0 (some "p")
      (by decide) (by decide) (by decide)
  exact ⟨ts, by rw [h]; rfl⟩

/-- C4: for every weekday name `w` and calendar date `today`, the
absolute-date parser resolves the weekday keyword to `today` minus
`days_since = (today.weekday() - w) mod 7` days, and fails exactly when
`days_since = 0`, i.e. exactly when `today` already falls on `w`. -/
theorem c4_weekday_strictly_prior (w : Weekday) (today : Int) :
    (Dateparse.parse_relative_date (some w.longName) today =
      (if (((Date.weekday today).num_days_from_monday : Int) -
            (w.num_days_from_monday : Int)) % 7 = 0 then none
       else
        some (today -
          (((Date.weekday today).num_days_from_monday : Int) -
            (w.num_days_from_monday : Int)) % 7))) ∧
    ((((Date.weekday today).num_days_from_monday : Int) -
        (w.num_days_from_monday : Int)) % 7 = 0 ↔ Date.weekday today = w) := by
  have hred : Dateparse.parse_relative_date (some w.longName) today =
      Dateparse.find_last_day today w := by
    cases w <;> rfl
  rw [hred]
  unfold Dateparse.find_last_day
  cases hw : Date.weekday today <;> cases w <;>
    simp [Weekday.days_since, Weekday.num_days_from_monday]

/-- C5: for every date `today`, timezone, and input whose trimmed form is
the keyword "now" case-insensitively, the relative-range parser returns
local midnight at the start of `today + 1` converted to UTC via the
earliest matching instant (and thus fails when that local midnight does
not exist). -/
theorem c5_now_start_of_tomorrow (s : String) (timezone : Tz) (today : Int)
    (h : eqIgnoreAsciiCase (strTrim s) "now" = true) :
    Reldateparse.parse_relative_date s timezone today =
      (timezone.resolve (today + 1) 0 0 0).earliest := by
  simp only [Reldateparse.parse_relative_date, h, if_true, succOpt, start_of_day]

/-- Witness for C5: `" NOW "` with `today` = 2024-04-05 (day 19818) in
the gap-free UTC model resolves to 2024-04-06T00:00:00Z. -/
theorem c5_now_start_of_tomorrow_witness :
    Reldateparse.parse_relative_date " NOW " utcTz 19818 = some 1712361600 :=
  (c5_now_start_of_tomorrow " NOW " utcTz 19818 (by decide)).trans (by decide)

/-- C8, counterexample: with a zero rounding unit both rounding
functions hit Rust's divide-by-zero panic of `%` (modelled as `none`),
so they are not total over all `u32` rounding values. -/
theorem c8_rounding_zero_counterexample :
    round_to_next 100 0 = none ∧ round_duration 100 0 = none :=
  ⟨rfl, rfl⟩

/-- C8 (amended): `round_to_next` returns a result for every nonzero
unit (away from the `i64::MIN % -1` overflow, unreachable from
`round_duration`), and `round_duration` returns a result for every
duration and every rounding-minute value whose unit in seconds is
nonzero as a `u32`. -/
theorem c8_rounding_total_on_nonzero_unit :
    (∀ value unit : Int, unit ≠ 0 → ¬(value = i64Min ∧ unit = -1) →
      (round_to_next value unit).isSome = true) ∧
    (∀ (value : Int) (rounding_minutes : Nat),
      (rounding_minutes * 60) % 2 ^ 32 ≠ 0 →
      (round_duration value rounding_minutes).isSome = true) := by
  have key : ∀ value unit : Int, unit ≠ 0 → ¬(value = i64Min ∧ unit = -1) →
      (round_to_next value unit).isSome = true := by
    intro value unit h1 h2
    unfold round_to_next
    rw [if_neg h1, if_neg h2]
    by_cases hr : Int.tmod value unit = 0 <;> simp [hr]
  refine ⟨key, ?_⟩
  intro value rounding_minutes h
  unfold round_duration
  apply key
  · exact_mod_cast h
  · rintro ⟨hv, hu⟩
    have h0 : (0 : Int) ≤ ((rounding_minutes * 60) % 2 ^ 32 : Nat) := Int.natCast_nonneg _
    omega

/-- Witness for the amended C8 at a 30-minute unit. -/
theorem c8_rounding_total_on_nonzero_unit_witness :
    (round_to_next 100 7).isSome = true ∧ (round_duration 100 30).isSome = true :=
  ⟨c8_rounding_total_on_nonzero_unit.1 100 7 (by decide) (by decide),
   c8_rounding_total_on_nonzero_unit.2 100 30 (by decide)⟩

/-- C9: for every non-negative record id `n`, `desqid (sqid n) = n`; and
`desqid` fails with an "invalid record id" error for exactly the
strings whose decoding does not yield a single id fitting in 32 bits. -/
theorem c9_codec_round_trip (n : Int) (h0 : 0 ≤ n) (h1 : n < 2 ^ 31) :
    desqid (sqid n) = Except.ok n ∧
    ∀ s : String, (∃ v, decodeIds s = [v] ∧ v < 2 ^ 32) ↔ (desqid s).isOk = true := by
  constructor
  · have heq : desqid (sqid n) =
        if u32ofI32 n < 2 ^ 32 then Except.ok (i32ofU32 (u32ofI32 n))
        else Except.error ("invalid record id " ++ sqid n) := by
      unfold desqid sqid
      rw [decodeIds_encodeId (u32ofI32_lt n)]
    rw [heq, if_pos (u32ofI32_lt n), i32ofU32_u32ofI32 n (by omega) h1]
  · intro s
    constructor
    · rintro ⟨v, hv, hlt⟩
      have heq : desqid s =
          if v < 2 ^ 32 then Except.ok (i32ofU32 v)
          else Except.error ("invalid record id " ++ s) := by
        unfold desqid
        rw [hv]
      rw [heq, if_pos hlt]
      rfl
    · intro hok
      unfold desqid at hok
      rcases hds : decodeIds s with - | ⟨v, - | ⟨w, t⟩⟩
      · rw [hds] at hok
        simp [Except.isOk, Except.toBool] at hok
      · rw [hds] at hok
        by_cases hv : v < 2 ^ 32
        · exact ⟨v, rfl, hv⟩
        · replace hok : (if v < 2 ^ 32 then Except.ok (i32ofU32 v)
              else Except.error ("invalid record id " ++ s)).isOk = true := hok
          rw [if_neg hv] at hok
          simp [Except.isOk, Except.toBool] at hok
      · rw [hds] at hok
        simp [Except.isOk, Except.toBool] at hok

/-- Witness for C9 at the concrete id 42. -/
theorem c9_codec_round_trip_witness : desqid (sqid 42) = Except.ok 42 :=
  (c9_codec_round_trip 42 (by decide) (by decide)).1

/-- C10: for every `i32` record id, `sqid` returns a string of length at
least 5 whose characters are all lowercase ASCII letters (codepoints
97–122); in particular the listing printer's `record.id[..5]` slice is
in bounds for library-produced ids. -/
theorem c10_sqid_shape (id : Int) (h0 : -(2 ^ 31) ≤ id) (h1 : id < 2 ^ 31) :
    5 ≤ (sqid id).length ∧ ∀ c ∈ (sqid id).data, 97 ≤ c.toNat ∧ c.toNat ≤ 122 := by
  constructor
  · show 5 ≤ ((encDigits (u32ofI32 id)).map digitChar).length
    rw [List.length_map]
    exact encDigits_length _
  · intro c hc
    rcases List.mem_map.mp hc with ⟨d, hd, rfl⟩
    rw [digitChar_toNat (encDigits_mem hd)]
    have := encDigits_mem hd
    omega

/-- Witness for C10 at the concrete id -1. -/
theorem c10_sqid_shape_witness :
    5 ≤ (sqid (-1)).length ∧ ∀ c ∈ (sqid (-1)).data, 97 ≤ c.toNat ∧ c.toNat ≤ 122 :=
  c10_sqid_shape (-1) (by decide) (by decide)

end Timesheettool
